import Mathlib

/-!
# TrendQuest — data-acquisition and cache subsystem, shallow embedding

This file embeds the data-acquisition-and-cache core of the TrendQuest
repository in Lean and proves the specified properties about it:

* `src/utils/cache_manager.py` — `CacheManager` (typed, TTL- and size-bounded
  on-disk cache with a persisted index), embedded as a pure state machine
  `CacheState` with operations `set` / `get` / `delete` /
  `clean_expired_cache` / `_check_cleanup`.
* `src/engine/data_loader.py` — `DataLoader._format_stock_code` and
  `DataLoader.load_stock_data` (symbol resolution and ordered provider
  failover), embedded with the provider calls abstracted as oracle functions.
* `src/utils/data_sync.py` — `DataSyncService.sync_stock_data` and its
  per-symbol retry loop `_fetch_stock_data`, embedded with the per-symbol
  task outcomes as an oracle, plus a small-step model of the
  `asyncio.Semaphore` concurrency bound.

Python `datetime` values are embedded as `Int` epoch seconds and `timedelta`
values as `Int` second counts.  Python `dict`s are embedded as
insertion-ordered association lists (`List (key × value)`), matching CPython's
ordered-dict semantics; assignment is `setAssoc`, which overwrites in place
when the key is present and appends otherwise.
-/

namespace TrendQuest

/-! ## Association-list helpers (embedding of Python dict operations) -/

/-- Python dict assignment `d[k] = v`: overwrite in place if `k` is present
(keeping its position, as CPython dicts do), else append at the end. -/
def setAssoc {β : Type} (l : List (String × β)) (k : String) (v : β) : List (String × β) :=
  match l.any (fun p => p.1 == k) with
  | true => l.map (fun p => match p.1 == k with | true => (k, v) | false => p)
  | false => l ++ [(k, v)]

/-! ## CacheManager (src/utils/cache_manager.py) -/

/-- The three storage kinds of the cache (`'json'`, `'dataframe'`, `'pickle'`),
each with its own subdirectory of the cache root. -/
inductive DataType : Type
  | json
  | dataframe
  | pickle
deriving DecidableEq

/-- Subdirectory / file-extension name of a storage kind, as used by
`CacheManager._get_cache_path`. -/
def DataType.dirName : DataType → String
  | .json => "json"
  | .dataframe => "dataframe"
  | .pickle => "pickle"

/-- Abstract Python runtime values that can be handed to `CacheManager.set`.
Constructors mirror the `isinstance` tests in `set`; the `Nat` payloads stand
for the (opaque) content, and double as the serialized byte size reported by
`os.path.getsize`. -/
inductive PyValue : Type
  | dataframe (data : Nat)
  | pydict (data : Nat)
  | pylist (data : Nat)
  | pystr (data : Nat)
  | pyint (data : Nat)
  | pyfloat (data : Nat)
  | pybool (b : Bool)
  | blob (data : Nat)
deriving DecidableEq

/-- Storage-kind auto-detection performed by `CacheManager.set` when the
caller passes `data_type=None`: `pd.DataFrame` → `'dataframe'`;
`dict`/`list`/`str`/`int`/`float`/`bool` → `'json'`; anything else →
`'pickle'`. -/
def detect_data_type : PyValue → DataType
  | .dataframe _ => .dataframe
  | .pydict _ => .json
  | .pylist _ => .json
  | .pystr _ => .json
  | .pyint _ => .json
  | .pyfloat _ => .json
  | .pybool _ => .json
  | .blob _ => .pickle

/-- Size in bytes of the serialized payload (`os.path.getsize(cache_path)`). -/
def PyValue.byteSize : PyValue → Nat
  | .dataframe n => n
  | .pydict n => n
  | .pylist n => n
  | .pystr n => n
  | .pyint n => n
  | .pyfloat n => n
  | .pybool _ => 1
  | .blob n => n

/-- One entry of the persisted cache index (`cache_index.json`). -/
structure CacheEntry : Type where
  type : DataType
  created_at : Int
  expires_at : Int
  size : Nat
deriving DecidableEq

/-- State of one `CacheManager` instance: its frozen clock, configuration, the
in-memory index (mirrored to `cache_index.json`), and the backing files on
disk, keyed by path. -/
structure CacheState : Type where
  current_time : Int
  max_size : Nat
  default_ttl : Int
  cleanup_interval : Int
  last_cleanup : Int
  index : List (String × CacheEntry)
  files : List (String × PyValue)
deriving DecidableEq

/-- Epoch seconds of `"2025-02-16 03:58:55"`, the constant the constructor
stores into `self.current_time`. -/
def cacheManagerInitTime : Int := 1739678335

/-- The `CacheManager.__init__` constructor: converts `max_size_mb` to bytes,
`default_ttl_days` / `cleanup_interval_hours` to `timedelta`s (seconds here),
loads the persisted index (`index0`, empty for a fresh cache directory), and
sets `last_cleanup` to the frozen `current_time`. -/
def CacheManager.construct (max_size_mb default_ttl_days cleanup_interval_hours : Nat)
    (index0 : List (String × CacheEntry)) (files0 : List (String × PyValue)) : CacheState :=
  { current_time := cacheManagerInitTime
    max_size := max_size_mb * 1024 * 1024
    default_ttl := (default_ttl_days : Int) * 86400
    cleanup_interval := (cleanup_interval_hours : Int) * 3600
    last_cleanup := cacheManagerInitTime
    index := index0
    files := files0 }

/-- `CacheManager._get_cache_path`: `cache_dir / data_type / f"{key}.{data_type}"`. -/
def cachePath (key : String) (dt : DataType) : String :=
  "cache/" ++ dt.dirName ++ "/" ++ key ++ "." ++ dt.dirName

/-- `CacheManager.get_cache_size`: sum of the `size` fields of the index. -/
def CacheState.get_cache_size (s : CacheState) : Nat :=
  (s.index.map (fun e => e.2.size)).sum

/-- `CacheManager.delete`: returns `False` when the key is unknown; otherwise
unlinks the backing file and removes the index entry, returning `True`. -/
def CacheState.delete (s : CacheState) (key : String) : Bool × CacheState :=
  match s.index.lookup key with
  | none => (false, s)
  | some info =>
    (true,
      { s with
        files := s.files.filter (fun f => f.1 != cachePath key info.type)
        index := s.index.filter (fun e => e.1 != key) })

/-- Keys of the index entries whose `expires_at` has passed; the entries
`CacheManager.clean_expired_cache` deletes. -/
def CacheState.expiredKeys (s : CacheState) : List String :=
  (s.index.filter (fun e => decide (e.2.expires_at < s.current_time))).map (fun e => e.1)

/-- `CacheManager.clean_expired_cache`: for each key in a snapshot of the
index, delete it if its `expires_at` is before `current_time`; returns the
number of deleted entries. -/
def CacheState.clean_expired_cache (s : CacheState) : CacheState × Nat :=
  (s.expiredKeys.foldl (fun st k => (st.delete k).2) s, s.expiredKeys.length)

/-- Python `min(keys, key=created_at)` over a nonempty index `x :: xs`:
the first entry attaining the smallest `created_at` (ties keep the earlier
element, as `min` does). -/
def oldestOf (x : String × CacheEntry) (xs : List (String × CacheEntry)) : String × CacheEntry :=
  xs.foldl (fun a b => if b.2.created_at < a.2.created_at then b else a) x

/-- The size-eviction loop of `CacheManager._check_cleanup`:
`while get_cache_size() > max_size and index: delete(min(index, key=created_at))`.
Structured with explicit fuel (one unit per deleted entry) so that it is a
structural recursion; `fuel = index.length` always suffices.  Also returns the
list of evicted entries, in eviction order, for stating eviction properties. -/
def evictLoopFuel : Nat → CacheState → CacheState × List (String × CacheEntry)
  | 0, s => (s, [])
  | fuel+1, s =>
    match s.index with
    | [] => (s, [])
    | x :: xs =>
      if s.max_size < s.get_cache_size then
        let ok := oldestOf x xs
        let r := evictLoopFuel fuel ((s.delete ok.1).2)
        (r.1, ok :: r.2)
      else (s, [])

/-- Body of the cleanup branch of `CacheManager._check_cleanup`: TTL sweep
(`clean_expired_cache`), then size eviction of oldest-created entries, then
`last_cleanup = current_time`.  Besides the final state it returns the list of
entries removed by size-eviction, in order. -/
def CacheState.cleanupCycle (s : CacheState) : CacheState × List (String × CacheEntry) :=
  let s1 := (s.clean_expired_cache).1
  let r := evictLoopFuel s1.index.length s1
  ({ r.1 with last_cleanup := r.1.current_time }, r.2)

/-- `CacheManager._check_cleanup`: run the cleanup cycle only when
`current_time - last_cleanup > cleanup_interval`. -/
def CacheState.check_cleanup (s : CacheState) : CacheState :=
  if s.cleanup_interval < s.current_time - s.last_cleanup then (s.cleanupCycle).1 else s

/-- Python `ttl or self.default_ttl`: `None` and the zero `timedelta` are
both falsy, so either falls back to the default TTL; any other `timedelta`
(including a negative one) is used as given. -/
def pyOrDefault (ttl : Option Int) (dflt : Int) : Int :=
  match ttl with
  | none => dflt
  | some t => if t = 0 then dflt else t

/-- `CacheManager.set`: resolve the storage kind (explicit `data_type` tag, or
`isinstance`-based auto-detection when the tag is `None`), serialize the value
to the kind's subdirectory, write the index entry
`{type, created_at, expires_at, size, created_by}`, persist the index, and run
`_check_cleanup`.  Returns `True` (the `False` branch is only reachable through
filesystem/serialization exceptions, which the pure embedding does not model). -/
def CacheState.set (s : CacheState) (key : String) (value : PyValue)
    (ttl : Option Int) (data_type : Option DataType) : Bool × CacheState :=
  let dt := match data_type with
    | some t => t
    | none => detect_data_type value
  let path := cachePath key dt
  let entry : CacheEntry :=
    { type := dt
      created_at := s.current_time
      expires_at := s.current_time + pyOrDefault ttl s.default_ttl
      size := value.byteSize }
  let s1 := { s with
    files := (path, value) :: s.files.filter (fun f => f.1 != path)
    index := setAssoc s.index key entry }
  (true, s1.check_cleanup)

/-- `CacheManager.get`: `None` for an unknown key; for a known key whose
`expires_at` is before `current_time`, delete the entry (lazy TTL expiry) and
return `None`; otherwise read the backing file of the stored kind. -/
def CacheState.get (s : CacheState) (key : String) : Option PyValue × CacheState :=
  match s.index.lookup key with
  | none => (none, s)
  | some info =>
    if info.expires_at < s.current_time then
      (none, (s.delete key).2)
    else
      (s.files.lookup (cachePath key info.type), s)

/-- The keys of an association list are pairwise distinct.  This is an
invariant of every Python dict and hence of the cache index. -/
abbrev keysNodup {β : Type} (l : List (String × β)) : Prop :=
  (l.map (fun e => e.1)).Nodup

/-! ### Concrete cache states used by witness theorems -/

/-- A small cache state with distinct keys: one expired entry plus two fresh
ones whose combined size exceeds the 25-byte cap. -/
def cacheDemoState : CacheState :=
  { current_time := 100
    max_size := 25
    default_ttl := 604800
    cleanup_interval := 86400
    last_cleanup := 100
    index := [("old", ⟨DataType.json, 1, 50, 10⟩),
              ("mid", ⟨DataType.json, 2, 200, 20⟩),
              ("new", ⟨DataType.json, 3, 300, 30⟩)]
    files := [(cachePath "old" DataType.json, PyValue.pystr 9),
              (cachePath "mid" DataType.json, PyValue.pystr 8),
              (cachePath "new" DataType.json, PyValue.pystr 7)] }

/-- A cache state for the `get` witness: one expired and one fresh entry. -/
def cacheGetDemoState : CacheState :=
  { current_time := 100
    max_size := 524288000
    default_ttl := 604800
    cleanup_interval := 86400
    last_cleanup := 100
    index := [("old", ⟨DataType.json, 1, 50, 10⟩),
              ("fresh", ⟨DataType.pickle, 2, 200, 4⟩)]
    files := [(cachePath "old" DataType.json, PyValue.pystr 9),
              (cachePath "fresh" DataType.pickle, PyValue.blob 7)] }

/-! ## DataLoader (src/engine/data_loader.py) -/

/-- One row (bar) of a provider DataFrame: a date index plus an opaque payload
standing for the OHLCV columns. -/
structure Bar : Type where
  date : Int
  data : Nat
deriving DecidableEq

/-- A provider DataFrame: the list of its rows. -/
abbrev DF := List Bar

/-- Python `str.replace(pat, '')` for a two-character pattern: remove every
non-overlapping occurrence, scanning left to right.  Written with explicit
fuel (`fuel = length` suffices) to keep the recursion structural. -/
def removePairFuel (a b : Char) : Nat → List Char → List Char
  | 0, l => l
  | _+1, [] => []
  | _+1, [c] => [c]
  | n+1, c :: d :: cs =>
    if c == a && d == b then removePairFuel a b n cs
    else c :: removePairFuel a b n (d :: cs)

/-- Python `s.replace(String.mk [a, b], '')`. -/
def removePair (a b : Char) (l : List Char) : List Char :=
  removePairFuel a b l.length l

/-- The code cleaning step `symbol.replace('sh', '').replace('sz', '')` of
`DataLoader._format_stock_code`. -/
def clean_symbol (symbol : String) : String :=
  String.mk (removePair 's' 'z' (removePair 's' 'h' symbol.data))

/-- `DataLoader.exchange_map`: the static numeric-code → exchange lookup
table built in `DataLoader.__init__`. -/
def exchange_map : List (String × String) :=
  [("600", "sh"), ("601", "sh"), ("603", "sh"), ("605", "sh"),
   ("000", "sz"), ("001", "sz"), ("002", "sz"), ("003", "sz"),
   ("300", "sz"), ("301", "sz")]

/-- First three characters of a cleaned symbol (`clean_symbol[:3]`). -/
def symbolKeyOf (c : String) : String := String.mk (c.data.take 3)

/-- Upper-casing of the exchange tag (`exchange.upper()`). -/
def stringUpper (s : String) : String := String.mk (s.data.map Char.toUpper)

/-- `DataLoader._format_stock_code`: strip `sh`/`sz`, look the three-digit
numeric code head up in `exchange_map`, and return the
`(baostock, tushare, akshare)` code triple; raise
`ValueError(f"Unknown stock code format: {symbol}")` for an unknown numeric
head (the spec's `UnknownSymbolFormat`), embedded as `Except.error`. -/
def _format_stock_code (symbol : String) : Except String (String × String × String) :=
  let c := clean_symbol symbol
  match exchange_map.lookup (symbolKeyOf c) with
  | none => .error ("Unknown stock code format: " ++ symbol)
  | some exch => .ok (exch ++ "." ++ c, c ++ "." ++ stringUpper exch, c)

/-- The last row of `df` dated on or before `d` — the value `ffill`
propagates to date `d`. -/
def lastOnOrBefore (df : DF) (d : Int) : Option Bar :=
  (df.filter (fun b => decide (b.date ≤ d))).getLast?

/-- `pd.date_range(start, end)`: every day from `start` to `end` inclusive
(dates are abstracted to integers, one unit per day). -/
def dateRange (startDate endDate : Int) : List Int :=
  if endDate < startDate then []
  else (List.range ((endDate - startDate).toNat + 1)).map (fun i => startDate + i)

/-- The continuity step of `load_stock_data`:
`df.reindex(pd.date_range(start, end), method='ffill')` — for each date of
the range take the last row on or before it (rows before the first data
point are NaN rows in pandas; they carry no provider data and are dropped
here). -/
def reindexFfill (startDate endDate : Int) (df : DF) : DF :=
  (dateRange startDate endDate).filterMap
    (fun d => (lastOnOrBefore df d).map (fun b => { date := d, data := b.data }))

/-- The three providers `DataLoader.load_stock_data` tries, in order. -/
inductive Provider : Type
  | baostock
  | tushare
  | akshare
deriving DecidableEq

/-- Environment of provider fetch results for one call: what
`_load_from_baostock` / `_load_from_tushare` / `_load_from_akshare` would
return for a given formatted code.  `none` covers every failure — network
error, provider error code, empty result, or malformed schema — since each of
those helpers catches its own exceptions and returns `None`. -/
structure ProviderEnv : Type where
  baostock : String → Option DF
  tushare : String → Option DF
  akshare : String → Option DF

/-- `DataLoader.load_stock_data`: check the in-memory cache, format the code,
then try baostock, tushare and akshare in that fixed order, accepting the
first non-`None` result; reindex-ffill it over the requested range, cache it
and return it; `None` when every provider failed.  Besides the result and the
updated cache, the embedding returns the list of providers actually attempted
(in order), used to state that no fetch happens after a resolver failure.
Any exception (in particular the resolver's `ValueError`) is caught by the
outer `try` and turned into `None`. -/
def load_stock_data (env : ProviderEnv) (cache : List (String × DF)) (symbol : String)
    (startDate endDate : Int) : Option DF × List (String × DF) × List Provider :=
  let cache_key := symbol ++ "_" ++ toString startDate ++ "_" ++ toString endDate
  match cache.lookup cache_key with
  | some df => (some df, cache, [])
  | none =>
    match _format_stock_code symbol with
    | .error _ => (none, cache, [])
    | .ok codes =>
      match env.baostock codes.1 with
      | some df =>
        let r := reindexFfill startDate endDate df
        (some r, setAssoc cache cache_key r, [Provider.baostock])
      | none =>
        match env.tushare codes.2.1 with
        | some df =>
          let r := reindexFfill startDate endDate df
          (some r, setAssoc cache cache_key r, [Provider.baostock, Provider.tushare])
        | none =>
          match env.akshare codes.2.2 with
          | some df =>
            let r := reindexFfill startDate endDate df
            (some r, setAssoc cache cache_key r,
              [Provider.baostock, Provider.tushare, Provider.akshare])
          | none => (none, cache, [Provider.baostock, Provider.tushare, Provider.akshare])

/-! ## DataSyncService (src/utils/data_sync.py) -/

/-- Result of one per-symbol fetch task, as observed by
`asyncio.gather(..., return_exceptions=True)` in `sync_stock_data`: the task
returned a DataFrame, returned `None` (every retry attempt exhausted), or
raised. -/
inductive FetchOutcome : Type
  | ok (df : DF)
  | noData
  | exn (msg : String)
deriving DecidableEq

/-- The retry loop of `DataSyncService._fetch_stock_data`:
`for attempt in range(max_retries)` calls `_fetch_from_api`; the first
non-empty DataFrame is cached and returned, and any failure moves on to the
next attempt (`api attempt = none` covers exception, `None` and empty-frame
results alike, since `_fetch_from_api` catches its own exceptions and returns
`None`); the loop falls through to `None` once every attempt is used up. -/
def fetchAttempts (api : Nat → Option DF) : Nat → Nat → Option DF
  | 0, _ => none
  | n+1, attempt =>
    match api attempt with
    | some df => some df
    | none => fetchAttempts api n (attempt + 1)

/-- `DataSyncService._fetch_stock_data`: serve a fresh cache file when one
exists, else run the retry loop. -/
def _fetch_stock_data (cacheHit : Option DF) (max_retries : Nat) (api : Nat → Option DF) :
    Option DF :=
  match cacheHit with
  | some df => some df
  | none => fetchAttempts api max_retries 0

/-- The persisted sync-status document (`sync_status.json`):
`{last_sync, sync_count, errors}`.  The constant audit fields
(`last_modified`, `modified_by`) are omitted. -/
structure SyncStatus : Type where
  last_sync : Option String
  sync_count : Nat
  errors : List (String × String)
deriving DecidableEq

/-- The aggregation step of `DataSyncService.sync_stock_data` over
`zip(symbols, completed)`: an exception result is appended to the `errors`
list, a `None` result is dropped, and a DataFrame is stored into `results`. -/
def syncStep (outcome : String → FetchOutcome)
    (acc : List (String × DF) × List (String × String)) (sym : String) :
    List (String × DF) × List (String × String) :=
  match outcome sym with
  | .exn msg => (acc.1, acc.2 ++ [(sym, msg)])
  | .noData => acc
  | .ok df => (setAssoc acc.1 sym df, acc.2)

/-- `DataSyncService.sync_stock_data`: run all per-symbol tasks (their
outcomes given by the `outcome` oracle — `gather` with
`return_exceptions=True` preserves the symbol order and never raises), build
the `results` dict and `errors` list, then update the sync status: set
`last_sync`, bump `sync_count`, and — only when the `errors` list is nonempty
— `dict.update` the persisted error map with the new error entries.  Only
`results` is returned; the errors stay in the status document. -/
def sync_stock_data (st : SyncStatus) (now : String) (symbols : List String)
    (outcome : String → FetchOutcome) : List (String × DF) × SyncStatus :=
  let r := symbols.foldl (syncStep outcome) ([], [])
  let st1 : SyncStatus :=
    { last_sync := some now
      sync_count := st.sync_count + 1
      errors :=
        match r.2 with
        | [] => st.errors
        | _ :: _ => r.2.foldl (fun m e => setAssoc m e.1 e.2) st.errors }
  (r.1, st1)

/-! ### Concrete loader / sync fixtures used by witness theorems -/

/-- A two-row provider DataFrame. -/
def loaderDemoDF : DF := [⟨0, 5⟩, ⟨1, 6⟩]

/-- Provider environment where baostock fails, tushare succeeds and akshare
would also fail: load must fail over to tushare. -/
def loaderDemoEnv : ProviderEnv :=
  { baostock := fun _ => none
    tushare := fun _ => some loaderDemoDF
    akshare := fun _ => none }

/-- Provider environment where every provider fails. -/
def loaderFailEnv : ProviderEnv :=
  { baostock := fun _ => none
    tushare := fun _ => none
    akshare := fun _ => none }

/-- A persisted sync status carrying stale error entries for "B" (inside the
next batch) and "D" (outside it). -/
def syncDemoStatus : SyncStatus := ⟨none, 0, [("B", "stale"), ("D", "other")]⟩

/-- The DataFrame returned for the successful symbol of the demo batch. -/
def syncDemoDF : DF := [⟨0, 1⟩]

/-- Task outcomes of the demo batch: "A" succeeds, "C" raises, everything
else exhausts its retries and returns `None`. -/
def syncDemoOutcome : String → FetchOutcome := fun sym =>
  if sym = "A" then FetchOutcome.ok syncDemoDF
  else if sym = "C" then FetchOutcome.exn "boom" else FetchOutcome.noData

/-! ## Concurrency model of `sync_stock_data` (`asyncio.Semaphore`) -/

/-- Phase of one per-symbol fetch task in `sync_stock_data`: not yet past
`async with semaphore` (waiting), inside `_fetch_stock_data` (running), or
finished (done). -/
inductive TaskPhase : Type
  | waiting
  | running
  | done
deriving DecidableEq

/-- Scheduler state of one batch: the semaphore counter plus all task states. -/
structure SchedState : Type where
  sem : Nat
  tasks : List TaskPhase
deriving DecidableEq

/-- Number of per-symbol fetches currently in flight. -/
def inFlight (s : SchedState) : Nat :=
  (s.tasks.filter (fun t => t == TaskPhase.running)).length

/-- Initial state of a batch: `semaphore = asyncio.Semaphore(max_concurrent)`
with counter `c`, and one waiting task per symbol (`asyncio.create_task` for
each of the `n` symbols). -/
def initSched (c n : Nat) : SchedState := ⟨c, List.replicate n TaskPhase.waiting⟩

/-- Interleaving semantics of `_fetch_stock_data_with_semaphore`
(`async with semaphore: await self._fetch_stock_data(...)`): a waiting task
may start its fetch only when the semaphore counter is positive — entering
the `async with` decrements it, and a blocked task stays waiting; a running
task that finishes re-increments the counter on exit from the `async with`.
No other transition touches the counter or the task states. -/
inductive SchedStep : SchedState → SchedState → Prop
  | acquire (s : SchedState) (i : Nat) (hi : i < s.tasks.length)
      (hw : s.tasks.get ⟨i, hi⟩ = TaskPhase.waiting) (hs : 0 < s.sem) :
      SchedStep s ⟨s.sem - 1, s.tasks.set i TaskPhase.running⟩
  | release (s : SchedState) (i : Nat) (hi : i < s.tasks.length)
      (hr : s.tasks.get ⟨i, hi⟩ = TaskPhase.running) :
      SchedStep s ⟨s.sem + 1, s.tasks.set i TaskPhase.done⟩

/-- States reachable during a batch run with concurrency bound `c` over `n`
symbols. -/
inductive SchedReachable (c n : Nat) : SchedState → Prop
  | start : SchedReachable c n (initSched c n)
  | step {s t : SchedState} : SchedReachable c n s → SchedStep s t → SchedReachable c n t

/-! ## Association-list lemmas -/

theorem lookup_eq_none_iff {β : Type} (l : List (String × β)) (k : String) :
    l.lookup k = none ↔ ∀ p ∈ l, p.1 ≠ k := by
  induction l with
  | nil => simp
  | cons x xs ih =>
    obtain ⟨xk, xv⟩ := x
    cases hb : (k == xk) with
    | true =>
      have hx : xk = k := (beq_iff_eq.mp hb).symm
      simp only [List.lookup_cons, hb]
      constructor
      · intro h
        cases h
      · intro h
        exact absurd hx (h (xk, xv) (List.mem_cons_self _ _))
    | false =>
      have hx : xk ≠ k := Ne.symm (beq_eq_false_iff_ne.mp hb)
      simp only [List.lookup_cons, hb]
      rw [ih]
      constructor
      · intro h p hp
        rcases List.mem_cons.mp hp with h1 | h1
        · rw [h1]
          exact hx
        · exact h p h1
      · intro h p hp
        exact h p (List.mem_cons_of_mem _ hp)

theorem mem_of_lookup_eq_some {β : Type} {l : List (String × β)} {k : String} {v : β}
    (h : l.lookup k = some v) : (k, v) ∈ l := by
  induction l with
  | nil => simp at h
  | cons x xs ih =>
    obtain ⟨xk, xv⟩ := x
    rw [List.lookup_cons] at h
    cases hb : (k == xk) with
    | true =>
      rw [hb] at h
      simp at h
      have hx : k = xk := beq_iff_eq.mp hb
      subst hx
      subst h
      exact List.mem_cons_self _ _
    | false =>
      rw [hb] at h
      exact List.mem_cons_of_mem _ (ih h)

theorem lookup_filter_ne {β : Type} (l : List (String × β)) (k : String) :
    (l.filter (fun e => e.1 != k)).lookup k = none := by
  rw [lookup_eq_none_iff]
  intro p hp
  have h2 := (List.mem_filter.mp hp).2
  simpa using h2

theorem lookup_map_overwrite_self {β : Type} (l : List (String × β)) (k : String) (v : β)
    (ha : l.any (fun p => p.1 == k) = true) :
    (l.map (fun p => match p.1 == k with | true => (k, v) | false => p)).lookup k = some v := by
  induction l with
  | nil => simp at ha
  | cons x xs ih =>
    obtain ⟨xk, xv⟩ := x
    cases hb : (xk == k) with
    | true =>
      simp only [List.map_cons, hb]
      simp [List.lookup_cons]
    | false =>
      have hkb : (k == xk) = false :=
        beq_eq_false_iff_ne.mpr (fun h => (beq_eq_false_iff_ne.mp hb) h.symm)
      have ha2 : xs.any (fun p => p.1 == k) = true := by
        simpa [List.any_cons, hb] using ha
      simp only [List.map_cons, hb, List.lookup_cons, hkb]
      exact ih ha2

theorem lookup_append_last {β : Type} (l : List (String × β)) (k : String) (v : β)
    (ha : l.any (fun p => p.1 == k) = false) :
    (l ++ [(k, v)]).lookup k = some v := by
  induction l with
  | nil => simp [List.lookup_cons]
  | cons x xs ih =>
    obtain ⟨xk, xv⟩ := x
    have hb : (xk == k) = false := by
      cases hbb : (xk == k) with
      | true => simp [List.any_cons, hbb] at ha
      | false => rfl
    have hkb : (k == xk) = false :=
      beq_eq_false_iff_ne.mpr (fun h => (beq_eq_false_iff_ne.mp hb) h.symm)
    have ha2 : xs.any (fun p => p.1 == k) = false := by
      simpa [List.any_cons, hb] using ha
    simpa [List.cons_append, List.lookup_cons, hkb] using ih ha2

theorem lookup_setAssoc_self {β : Type} (l : List (String × β)) (k : String) (v : β) :
    (setAssoc l k v).lookup k = some v := by
  cases ha : l.any (fun p => p.1 == k) with
  | true =>
    simp only [setAssoc, ha]
    exact lookup_map_overwrite_self l k v ha
  | false =>
    simp only [setAssoc, ha]
    exact lookup_append_last l k v ha

theorem lookup_map_overwrite_ne {β : Type} (l : List (String × β)) (k k2 : String) (v : β)
    (hne : k2 ≠ k) :
    (l.map (fun p => match p.1 == k with | true => (k, v) | false => p)).lookup k2 = l.lookup k2 := by
  have h1 : (k2 == k) = false := beq_eq_false_iff_ne.mpr hne
  induction l with
  | nil => simp
  | cons x xs ih =>
    obtain ⟨xk, xv⟩ := x
    cases hb : (xk == k) with
    | true =>
      have hx : xk = k := beq_iff_eq.mp hb
      have h2 : (k2 == xk) = false := beq_eq_false_iff_ne.mpr (fun h => hne (h.trans hx))
      simp only [List.map_cons, hb, List.lookup_cons, h1, h2]
      exact ih
    | false =>
      simp only [List.map_cons, hb, List.lookup_cons]
      cases hkc : (k2 == xk) with
      | true => rfl
      | false => exact ih

theorem lookup_append_single_ne {β : Type} (l : List (String × β)) (k k2 : String) (v : β)
    (hne : k2 ≠ k) : (l ++ [(k, v)]).lookup k2 = l.lookup k2 := by
  induction l with
  | nil => simp [List.lookup_cons, beq_eq_false_iff_ne.mpr hne]
  | cons x xs ih =>
    obtain ⟨xk, xv⟩ := x
    simp only [List.cons_append, List.lookup_cons]
    cases hkc : (k2 == xk) with
    | true => rfl
    | false => exact ih

theorem lookup_setAssoc_ne {β : Type} (l : List (String × β)) (k k2 : String) (v : β)
    (hne : k2 ≠ k) : (setAssoc l k v).lookup k2 = l.lookup k2 := by
  cases ha : l.any (fun p => p.1 == k) with
  | true =>
    simp only [setAssoc, ha]
    exact lookup_map_overwrite_ne l k k2 v hne
  | false =>
    simp only [setAssoc, ha]
    exact lookup_append_single_ne l k k2 v hne

/-! ## Structural lemmas about `CacheState.delete` and the cleanup helpers -/

theorem delete_current_time (s : CacheState) (k : String) :
    ((s.delete k).2).current_time = s.current_time := by
  unfold CacheState.delete
  cases h : s.index.lookup k <;> rfl

theorem delete_max_size (s : CacheState) (k : String) :
    ((s.delete k).2).max_size = s.max_size := by
  unfold CacheState.delete
  cases h : s.index.lookup k <;> rfl

theorem delete_index_eq (s : CacheState) (k : String) :
    ((s.delete k).2).index = s.index.filter (fun e => e.1 != k) := by
  unfold CacheState.delete
  cases h : s.index.lookup k with
  | none =>
    have hall := (lookup_eq_none_iff s.index k).mp h
    exact (List.filter_eq_self.mpr (fun e he => bne_iff_ne.mpr (hall e he))).symm
  | some info => rfl

theorem delete_files_of_lookup (s : CacheState) (k : String) (info : CacheEntry)
    (h : s.index.lookup k = some info) :
    ((s.delete k).2).files = s.files.filter (fun f => f.1 != cachePath k info.type) := by
  unfold CacheState.delete
  rw [h]

/-- Sum of the `size` fields of a list of index entries. -/
def entriesSize (l : List (String × CacheEntry)) : Nat :=
  (l.map (fun e => e.2.size)).sum

theorem get_cache_size_eq_entriesSize (s : CacheState) :
    s.get_cache_size = entriesSize s.index := rfl

theorem entriesSize_cons (x : String × CacheEntry) (l : List (String × CacheEntry)) :
    entriesSize (x :: l) = x.2.size + entriesSize l := by
  simp [entriesSize]

theorem keysNodup_filter {β : Type} (l : List (String × β)) (p : String × β → Bool)
    (h : keysNodup l) : keysNodup (l.filter p) :=
  h.sublist ((List.filter_sublist l).map (fun e => e.1))

theorem keysNodup_delete (s : CacheState) (k : String) (h : keysNodup s.index) :
    keysNodup ((s.delete k).2).index := by
  rw [delete_index_eq]
  exact keysNodup_filter s.index _ h

theorem entriesSize_filter_ne (l : List (String × CacheEntry)) (e : String × CacheEntry)
    (hnd : keysNodup l) (he : e ∈ l) :
    entriesSize (l.filter (fun p => p.1 != e.1)) + e.2.size = entriesSize l := by
  induction l with
  | nil => cases he
  | cons x xs ih =>
    have hnd2 : keysNodup xs := (List.nodup_cons.mp hnd).2
    have hnx : x.1 ∉ xs.map (fun p => p.1) := (List.nodup_cons.mp hnd).1
    rcases List.mem_cons.mp he with h1 | h1
    · subst h1
      have hdrop : (e.1 != e.1) = false := by simp
      have hkeep : xs.filter (fun p => p.1 != e.1) = xs := by
        apply List.filter_eq_self.mpr
        intro p hp
        apply bne_iff_ne.mpr
        intro hpe
        exact hnx (hpe ▸ List.mem_map.mpr ⟨p, hp, rfl⟩)
      rw [List.filter_cons, hdrop]
      simp only [if_neg (by simp : ¬ false = true), hkeep, entriesSize_cons]
      omega
    · have hne : (x.1 != e.1) = true := by
        apply bne_iff_ne.mpr
        intro hxe
        exact hnx (hxe ▸ List.mem_map.mpr ⟨e, h1, rfl⟩)
      rw [List.filter_cons, hne]
      have hih := ih hnd2 h1
      simp only [if_true, eq_self_iff_true, entriesSize_cons]
      omega

theorem delete_size_of_mem (s : CacheState) (e : String × CacheEntry)
    (hnd : keysNodup s.index) (he : e ∈ s.index) :
    ((s.delete e.1).2).get_cache_size + e.2.size = s.get_cache_size := by
  rw [get_cache_size_eq_entriesSize, get_cache_size_eq_entriesSize, delete_index_eq]
  exact entriesSize_filter_ne s.index e hnd he

theorem foldl_delete_current_time (ks : List String) (s : CacheState) :
    (ks.foldl (fun st k => (st.delete k).2) s).current_time = s.current_time := by
  induction ks generalizing s with
  | nil => rfl
  | cons k ks ih => rw [List.foldl_cons, ih, delete_current_time]

theorem foldl_delete_max_size (ks : List String) (s : CacheState) :
    (ks.foldl (fun st k => (st.delete k).2) s).max_size = s.max_size := by
  induction ks generalizing s with
  | nil => rfl
  | cons k ks ih => rw [List.foldl_cons, ih, delete_max_size]

theorem foldl_delete_index (ks : List String) (s : CacheState) :
    (ks.foldl (fun st k => (st.delete k).2) s).index
      = s.index.filter (fun e => decide (e.1 ∉ ks)) := by
  induction ks generalizing s with
  | nil => simp
  | cons k ks ih =>
    rw [List.foldl_cons, ih, delete_index_eq, List.filter_filter]
    apply List.filter_congr
    intro e he
    by_cases h1 : e.1 = k
    · simp [h1]
    · by_cases h2 : e.1 ∈ ks <;> simp [h1, h2]

/-! ## Lemmas about `oldestOf` and the size-eviction loop -/

theorem oldestOf_eq_or_mem (xs : List (String × CacheEntry)) :
    ∀ a, oldestOf a xs = a ∨ oldestOf a xs ∈ xs := by
  induction xs with
  | nil =>
    intro a
    left
    rfl
  | cons y ys ih =>
    intro a
    have hstep : oldestOf a (y :: ys)
        = oldestOf (if y.2.created_at < a.2.created_at then y else a) ys := rfl
    rw [hstep]
    rcases ih (if y.2.created_at < a.2.created_at then y else a) with h1 | h1
    · rw [h1]
      by_cases hc : y.2.created_at < a.2.created_at
      · rw [if_pos hc]
        right
        exact List.mem_cons_self _ _
      · rw [if_neg hc]
        left
        rfl
    · right
      exact List.mem_cons_of_mem _ h1

theorem oldestOf_mem_cons (x : String × CacheEntry) (xs : List (String × CacheEntry)) :
    oldestOf x xs ∈ x :: xs := by
  rcases oldestOf_eq_or_mem xs x with h | h
  · rw [h]
    exact List.mem_cons_self _ _
  · exact List.mem_cons_of_mem _ h

theorem oldestOf_min (xs : List (String × CacheEntry)) :
    ∀ a, (oldestOf a xs).2.created_at ≤ a.2.created_at
      ∧ ∀ e ∈ xs, (oldestOf a xs).2.created_at ≤ e.2.created_at := by
  induction xs with
  | nil =>
    intro a
    refine ⟨le_refl _, ?_⟩
    intro e he
    cases he
  | cons y ys ih =>
    intro a
    have hstep : oldestOf a (y :: ys)
        = oldestOf (if y.2.created_at < a.2.created_at then y else a) ys := rfl
    rw [hstep]
    have hba : (if y.2.created_at < a.2.created_at then y else a).2.created_at
        ≤ a.2.created_at := by
      by_cases hc : y.2.created_at < a.2.created_at
      · rw [if_pos hc]
        exact le_of_lt hc
      · rw [if_neg hc]
    have hby : (if y.2.created_at < a.2.created_at then y else a).2.created_at
        ≤ y.2.created_at := by
      by_cases hc : y.2.created_at < a.2.created_at
      · rw [if_pos hc]
      · rw [if_neg hc]
        exact le_of_not_lt hc
    obtain ⟨h1, h2⟩ := ih (if y.2.created_at < a.2.created_at then y else a)
    refine ⟨le_trans h1 hba, ?_⟩
    intro e he
    rcases List.mem_cons.mp he with h3 | h3
    · rw [h3]
      exact le_trans h1 hby
    · exact h2 e h3

theorem oldestOf_min_cons (x : String × CacheEntry) (xs : List (String × CacheEntry)) :
    ∀ e ∈ x :: xs, (oldestOf x xs).2.created_at ≤ e.2.created_at := by
  intro e he
  rcases List.mem_cons.mp he with h | h
  · rw [h]
    exact (oldestOf_min xs x).1
  · exact (oldestOf_min xs x).2 e h

theorem delete_index_length_lt (s : CacheState) (e : String × CacheEntry)
    (he : e ∈ s.index) : ((s.delete e.1).2).index.length < s.index.length := by
  rw [delete_index_eq, List.length_filter_lt_length_iff_exists]
  exact ⟨e, he, by simp⟩

theorem evictLoopFuel_max_size (fuel : Nat) : ∀ s : CacheState,
    (evictLoopFuel fuel s).1.max_size = s.max_size := by
  induction fuel with
  | zero =>
    intro s
    rfl
  | succ n ih =>
    intro s
    unfold evictLoopFuel
    cases hidx : s.index with
    | nil => rfl
    | cons x xs =>
      by_cases hsz : s.max_size < s.get_cache_size
      · simp only [if_pos hsz]
        show (evictLoopFuel n ((s.delete (oldestOf x xs).1).2)).1.max_size = s.max_size
        rw [ih, delete_max_size]
      · simp only [if_neg hsz]

theorem evictLoopFuel_index_subset (fuel : Nat) : ∀ s : CacheState,
    (evictLoopFuel fuel s).1.index ⊆ s.index := by
  induction fuel with
  | zero =>
    intro s
    exact fun a ha => ha
  | succ n ih =>
    intro s
    unfold evictLoopFuel
    cases hidx : s.index with
    | nil =>
      intro a ha
      rw [← hidx]
      exact ha
    | cons x xs =>
      by_cases hsz : s.max_size < s.get_cache_size
      · simp only [if_pos hsz]
        intro a ha
        have h1 := ih ((s.delete (oldestOf x xs).1).2) ha
        rw [delete_index_eq, hidx] at h1
        exact List.filter_subset' _ h1
      · simp only [if_neg hsz]
        intro a ha
        exact hidx ▸ ha

theorem evictLoopFuel_size_le (fuel : Nat) : ∀ s : CacheState, s.index.length ≤ fuel →
    (evictLoopFuel fuel s).1.get_cache_size ≤ s.max_size := by
  induction fuel with
  | zero =>
    intro s hlen
    have hnil : s.index = [] := List.eq_nil_of_length_eq_zero (Nat.le_zero.mp hlen)
    show s.get_cache_size ≤ s.max_size
    rw [get_cache_size_eq_entriesSize, hnil]
    exact Nat.zero_le _
  | succ n ih =>
    intro s hlen
    unfold evictLoopFuel
    cases hidx : s.index with
    | nil =>
      show s.get_cache_size ≤ s.max_size
      rw [get_cache_size_eq_entriesSize, hidx]
      exact Nat.zero_le _
    | cons x xs =>
      by_cases hsz : s.max_size < s.get_cache_size
      · simp only [if_pos hsz]
        show (evictLoopFuel n ((s.delete (oldestOf x xs).1).2)).1.get_cache_size ≤ s.max_size
        have hmem : oldestOf x xs ∈ s.index := by
          rw [hidx]
          exact oldestOf_mem_cons x xs
        have hlt := delete_index_length_lt s (oldestOf x xs) hmem
        have hlen2 : ((s.delete (oldestOf x xs).1).2).index.length ≤ n := by
          rw [hidx] at hlt hlen
          omega
        have := ih ((s.delete (oldestOf x xs).1).2) hlen2
        rw [delete_max_size] at this
        exact this
      · simp only [if_neg hsz]
        exact le_of_not_lt hsz

theorem evictLoopFuel_log_mem (fuel : Nat) : ∀ s : CacheState,
    ∀ e ∈ (evictLoopFuel fuel s).2, e ∈ s.index := by
  induction fuel with
  | zero =>
    intro s e he
    exact absurd he (List.not_mem_nil e)
  | succ n ih =>
    intro s
    unfold evictLoopFuel
    cases hidx : s.index with
    | nil =>
      intro e he
      exact absurd he (List.not_mem_nil e)
    | cons x xs =>
      by_cases hsz : s.max_size < s.get_cache_size
      · simp only [if_pos hsz]
        intro e he
        rcases List.mem_cons.mp he with h1 | h1
        · rw [h1, ← hidx]
          rw [hidx]
          exact oldestOf_mem_cons x xs
        · have h2 := ih ((s.delete (oldestOf x xs).1).2) e h1
          rw [delete_index_eq, hidx] at h2
          exact List.filter_subset' _ h2
      · simp only [if_neg hsz]
        intro e he
        exact absurd he (List.not_mem_nil e)

theorem evictLoopFuel_log_le_kept (fuel : Nat) : ∀ s : CacheState,
    ∀ e ∈ (evictLoopFuel fuel s).2, ∀ e2 ∈ (evictLoopFuel fuel s).1.index,
      e.2.created_at ≤ e2.2.created_at := by
  induction fuel with
  | zero =>
    intro s e he
    exact absurd he (List.not_mem_nil e)
  | succ n ih =>
    intro s
    unfold evictLoopFuel
    cases hidx : s.index with
    | nil =>
      intro e he
      exact absurd he (List.not_mem_nil e)
    | cons x xs =>
      by_cases hsz : s.max_size < s.get_cache_size
      · simp only [if_pos hsz]
        intro e he e2 he2
        rcases List.mem_cons.mp he with h1 | h1
        · have hsub : e2 ∈ ((s.delete (oldestOf x xs).1).2).index :=
            evictLoopFuel_index_subset n _ he2
          rw [delete_index_eq, hidx] at hsub
          have hmem2 : e2 ∈ x :: xs := List.filter_subset' _ hsub
          rw [h1]
          exact oldestOf_min_cons x xs e2 hmem2
        · exact ih ((s.delete (oldestOf x xs).1).2) e h1 e2 he2
      · simp only [if_neg hsz]
        intro e he
        exact absurd he (List.not_mem_nil e)

theorem evictLoopFuel_size_partition (fuel : Nat) : ∀ s : CacheState, keysNodup s.index →
    (evictLoopFuel fuel s).1.get_cache_size + entriesSize (evictLoopFuel fuel s).2
      = s.get_cache_size := by
  induction fuel with
  | zero =>
    intro s hnd
    show s.get_cache_size + entriesSize [] = s.get_cache_size
    simp [entriesSize]
  | succ n ih =>
    intro s hnd
    unfold evictLoopFuel
    cases hidx : s.index with
    | nil =>
      show s.get_cache_size + entriesSize [] = s.get_cache_size
      simp [entriesSize]
    | cons x xs =>
      by_cases hsz : s.max_size < s.get_cache_size
      · simp only [if_pos hsz]
        show (evictLoopFuel n ((s.delete (oldestOf x xs).1).2)).1.get_cache_size
            + entriesSize (oldestOf x xs :: (evictLoopFuel n ((s.delete (oldestOf x xs).1).2)).2)
            = s.get_cache_size
        have hmem : oldestOf x xs ∈ s.index := by
          rw [hidx]
          exact oldestOf_mem_cons x xs
        have hnd2 : keysNodup ((s.delete (oldestOf x xs).1).2).index :=
          keysNodup_delete s _ hnd
        have hpart := ih ((s.delete (oldestOf x xs).1).2) hnd2
        have hsize := delete_size_of_mem s (oldestOf x xs) hnd hmem
        rw [entriesSize_cons]
        omega
      · simp only [if_neg hsz]
        show s.get_cache_size + entriesSize [] = s.get_cache_size
        simp [entriesSize]

theorem evictLoopFuel_over_cap_suffix (fuel : Nat) : ∀ s : CacheState, keysNodup s.index →
    ∀ l1 l2, (evictLoopFuel fuel s).2 = l1 ++ l2 → l2 ≠ [] →
      s.max_size < (evictLoopFuel fuel s).1.get_cache_size + entriesSize l2 := by
  induction fuel with
  | zero =>
    intro s hnd l1 l2 hsplit hne
    exact absurd (List.append_eq_nil.mp hsplit.symm).2 hne
  | succ n ih =>
    intro s hnd
    unfold evictLoopFuel
    cases hidx : s.index with
    | nil =>
      intro l1 l2 hsplit hne
      exact absurd (List.append_eq_nil.mp hsplit.symm).2 hne
    | cons x xs =>
      by_cases hsz : s.max_size < s.get_cache_size
      · simp only [if_pos hsz]
        intro l1 l2 hsplit hne
        have hmem : oldestOf x xs ∈ s.index := by
          rw [hidx]
          exact oldestOf_mem_cons x xs
        have hnd2 : keysNodup ((s.delete (oldestOf x xs).1).2).index :=
          keysNodup_delete s _ hnd
        cases l1 with
        | nil =>
          rw [List.nil_append] at hsplit
          have hpart := evictLoopFuel_size_partition n ((s.delete (oldestOf x xs).1).2) hnd2
          have hsize := delete_size_of_mem s (oldestOf x xs) hnd hmem
          rw [← hsplit, entriesSize_cons]
          omega
        | cons y l1t =>
          rw [List.cons_append] at hsplit
          have hy : oldestOf x xs = y := (List.cons.injEq _ _ _ _).mp hsplit |>.1
          have hrest : (evictLoopFuel n ((s.delete (oldestOf x xs).1).2)).2 = l1t ++ l2 :=
            (List.cons.injEq _ _ _ _).mp hsplit |>.2
          have := ih ((s.delete (oldestOf x xs).1).2) hnd2 l1t l2 hrest hne
          rw [delete_max_size] at this
          exact this
      · simp only [if_neg hsz]
        intro l1 l2 hsplit hne
        exact absurd (List.append_eq_nil.mp hsplit.symm).2 hne

/-! ## Lemmas about the TTL sweep and `_check_cleanup` -/

theorem clean_expired_max_size (s : CacheState) :
    (s.clean_expired_cache).1.max_size = s.max_size :=
  foldl_delete_max_size s.expiredKeys s

theorem keysNodup_clean_expired (s : CacheState) (hnd : keysNodup s.index) :
    keysNodup (s.clean_expired_cache).1.index := by
  show keysNodup (s.expiredKeys.foldl (fun st k => (st.delete k).2) s).index
  rw [foldl_delete_index]
  exact keysNodup_filter _ _ hnd

theorem clean_expired_index (s : CacheState) (hnd : keysNodup s.index) :
    (s.clean_expired_cache).1.index
      = s.index.filter (fun e => !decide (e.2.expires_at < s.current_time)) := by
  show (s.expiredKeys.foldl (fun st k => (st.delete k).2) s).index = _
  rw [foldl_delete_index]
  apply List.filter_congr
  intro e he
  by_cases hx : e.2.expires_at < s.current_time
  · have hm : e.1 ∈ s.expiredKeys :=
      List.mem_map.mpr ⟨e, List.mem_filter.mpr ⟨he, by simpa using hx⟩, rfl⟩
    simp [hx, hm]
  · have hm : e.1 ∉ s.expiredKeys := by
      intro hmem
      obtain ⟨p, hp, hpe⟩ := List.mem_map.mp hmem
      have hpm := List.mem_filter.mp hp
      have hpe2 : p = e := List.inj_on_of_nodup_map hnd hpm.1 he hpe
      rw [hpe2] at hpm
      exact hx (by simpa using hpm.2)
    simp [hx, hm]

theorem check_cleanup_eq_self (s : CacheState) (hlc : s.last_cleanup = s.current_time)
    (hci : 0 ≤ s.cleanup_interval) : s.check_cleanup = s := by
  have h : ¬ s.cleanup_interval < s.current_time - s.last_cleanup := by
    rw [hlc]
    omega
  unfold CacheState.check_cleanup
  rw [if_neg h]

theorem set_no_cleanup (s : CacheState) (k : String) (v : PyValue)
    (ttl : Option Int) (dtag : Option DataType)
    (hlc : s.last_cleanup = s.current_time) (hci : 0 ≤ s.cleanup_interval) :
    (s.set k v ttl dtag).2
      = { s with
          files :=
            (cachePath k (match dtag with | some t => t | none => detect_data_type v), v)
              :: s.files.filter (fun f =>
                  f.1 != cachePath k (match dtag with | some t => t | none => detect_data_type v))
          index := setAssoc s.index k
            { type := match dtag with | some t => t | none => detect_data_type v
              created_at := s.current_time
              expires_at := s.current_time + pyOrDefault ttl s.default_ttl
              size := v.byteSize } } := by
  apply check_cleanup_eq_self
  · exact hlc
  · exact hci

/-! ## Claim theorems about the cache -/

/-- C3 — whenever the cleanup cycle of `_check_cleanup` runs: (i) the TTL
sweep first deletes exactly the index entries whose `expires_at` has passed;
(ii) after the cycle the total cached bytes do not exceed `max_size`;
(iii) every entry removed by size-eviction was created no later than every
surviving entry (oldest-`created_at` first); (iv) the evicted entries are all
needed: when the eviction log splits as `l1 ++ l2` with `l2` nonempty, the
state just before `l2`'s first eviction was still over the cap, so stopping
any earlier would leave the cache above `max_size`. -/
theorem cache_cleanup_cycle_ttl_sweep_then_oldest_eviction (s : CacheState)
    (hnd : keysNodup s.index) :
    ((s.clean_expired_cache).1.index
        = s.index.filter (fun e => !decide (e.2.expires_at < s.current_time)))
    ∧ (s.cleanupCycle).1.get_cache_size ≤ s.max_size
    ∧ (∀ e ∈ (s.cleanupCycle).2, ∀ e2 ∈ (s.cleanupCycle).1.index,
        e.2.created_at ≤ e2.2.created_at)
    ∧ (∀ l1 l2, (s.cleanupCycle).2 = l1 ++ l2 → l2 ≠ [] →
        s.max_size < (s.cleanupCycle).1.get_cache_size + entriesSize l2) := by
  have hnd1 : keysNodup (s.clean_expired_cache).1.index := keysNodup_clean_expired s hnd
  have hcc1 : (s.cleanupCycle).1.get_cache_size
      = (evictLoopFuel (s.clean_expired_cache).1.index.length
          (s.clean_expired_cache).1).1.get_cache_size := rfl
  have hcc2 : (s.cleanupCycle).2
      = (evictLoopFuel (s.clean_expired_cache).1.index.length
          (s.clean_expired_cache).1).2 := rfl
  have hccidx : (s.cleanupCycle).1.index
      = (evictLoopFuel (s.clean_expired_cache).1.index.length
          (s.clean_expired_cache).1).1.index := rfl
  refine ⟨clean_expired_index s hnd, ?_, ?_, ?_⟩
  · rw [hcc1]
    have h1 := evictLoopFuel_size_le _ (s.clean_expired_cache).1 le_rfl
    rw [clean_expired_max_size] at h1
    exact h1
  · intro e he e2 he2
    rw [hcc2] at he
    rw [hccidx] at he2
    exact evictLoopFuel_log_le_kept _ _ e he e2 he2
  · intro l1 l2 hsplit hne
    rw [hcc2] at hsplit
    rw [hcc1]
    have h1 := evictLoopFuel_over_cap_suffix _ (s.clean_expired_cache).1 hnd1 l1 l2 hsplit hne
    rw [clean_expired_max_size] at h1
    exact h1

/-- Witness for C3 at a concrete three-entry cache state. -/
theorem cache_cleanup_cycle_ttl_sweep_then_oldest_eviction_witness :
    keysNodup cacheDemoState.index
    ∧ (((cacheDemoState.clean_expired_cache).1.index
        = cacheDemoState.index.filter
            (fun e => !decide (e.2.expires_at < cacheDemoState.current_time)))
      ∧ (cacheDemoState.cleanupCycle).1.get_cache_size ≤ cacheDemoState.max_size
      ∧ (∀ e ∈ (cacheDemoState.cleanupCycle).2, ∀ e2 ∈ (cacheDemoState.cleanupCycle).1.index,
          e.2.created_at ≤ e2.2.created_at)
      ∧ (∀ l1 l2, (cacheDemoState.cleanupCycle).2 = l1 ++ l2 → l2 ≠ [] →
          cacheDemoState.max_size
            < (cacheDemoState.cleanupCycle).1.get_cache_size + entriesSize l2)) :=
  ⟨by decide, cache_cleanup_cycle_ttl_sweep_then_oldest_eviction cacheDemoState (by decide)⟩

/-- C4 — `CacheManager.get`: an unknown key yields `None` with the state
untouched; a known but expired key is deleted (index entry and backing file
both gone) and yields `None`; a known fresh key yields the deserialized
stored value with the state untouched. -/
theorem cache_get_absent_expired_or_value (s : CacheState) (k : String) :
    (s.index.lookup k = none → s.get k = (none, s))
    ∧ (∀ info, s.index.lookup k = some info → info.expires_at < s.current_time →
        s.get k = (none, (s.delete k).2)
        ∧ ((s.get k).2).index.lookup k = none
        ∧ ((s.get k).2).files.lookup (cachePath k info.type) = none)
    ∧ (∀ info v, s.index.lookup k = some info → ¬ info.expires_at < s.current_time →
        s.files.lookup (cachePath k info.type) = some v →
        s.get k = (some v, s)) := by
  refine ⟨?_, ?_, ?_⟩
  · intro h
    unfold CacheState.get
    rw [h]
  · intro info h hexp
    have hget : s.get k = (none, (s.delete k).2) := by
      unfold CacheState.get
      rw [h]
      simp [hexp]
    refine ⟨hget, ?_, ?_⟩
    · rw [hget]
      show ((s.delete k).2).index.lookup k = none
      rw [delete_index_eq]
      exact lookup_filter_ne _ _
    · rw [hget]
      show ((s.delete k).2).files.lookup (cachePath k info.type) = none
      rw [delete_files_of_lookup s k info h]
      exact lookup_filter_ne _ _
  · intro info v h hexp hfile
    unfold CacheState.get
    rw [h]
    simp [hexp, hfile]

/-- Witness for C4: a missing key, an expired key and a fresh key on a
concrete state. -/
theorem cache_get_absent_expired_or_value_witness :
    (cacheGetDemoState.get "missing" = (none, cacheGetDemoState))
    ∧ (cacheGetDemoState.get "old" = (none, (cacheGetDemoState.delete "old").2)
        ∧ ((cacheGetDemoState.get "old").2).index.lookup "old" = none
        ∧ ((cacheGetDemoState.get "old").2).files.lookup (cachePath "old" DataType.json) = none)
    ∧ (cacheGetDemoState.get "fresh" = (some (PyValue.blob 7), cacheGetDemoState)) :=
  ⟨(cache_get_absent_expired_or_value cacheGetDemoState "missing").1 (by decide),
   (cache_get_absent_expired_or_value cacheGetDemoState "old").2.1
      ⟨DataType.json, 1, 50, 10⟩ (by decide) (by decide),
   (cache_get_absent_expired_or_value cacheGetDemoState "fresh").2.2
      ⟨DataType.pickle, 2, 200, 4⟩ (PyValue.blob 7) (by decide) (by decide) (by decide)⟩

/-- C5 — `get(k)` immediately after a successful `set(k, v, ttl)` whose
effective TTL has not elapsed returns exactly `v` (and leaves the state as
`set` left it).  The hypotheses pin down the run-time situation of one
`CacheManager` instance: `last_cleanup` equals the frozen clock and the
configured cleanup interval and effective TTL are nonnegative. -/
theorem cache_set_then_get_roundtrip (s : CacheState) (k : String) (v : PyValue)
    (ttl : Option Int) (dtag : Option DataType)
    (hlc : s.last_cleanup = s.current_time) (hci : 0 ≤ s.cleanup_interval)
    (httl : 0 ≤ pyOrDefault ttl s.default_ttl) :
    ((s.set k v ttl dtag).2).get k = (some v, (s.set k v ttl dtag).2) := by
  rw [set_no_cleanup s k v ttl dtag hlc hci]
  have hexp : ¬ (s.current_time + pyOrDefault ttl s.default_ttl < s.current_time) := by omega
  unfold CacheState.get
  simp only [lookup_setAssoc_self]
  simp [hexp, List.lookup_cons]

/-- Witness for C5 on a freshly constructed manager. -/
theorem cache_set_then_get_roundtrip_witness :
    (((CacheManager.construct 500 7 24 [] []).set "k" (PyValue.pystr 3) none none).2).get "k"
      = (some (PyValue.pystr 3),
          ((CacheManager.construct 500 7 24 [] []).set "k" (PyValue.pystr 3) none none).2) :=
  cache_set_then_get_roundtrip (CacheManager.construct 500 7 24 [] [])
    "k" (PyValue.pystr 3) none none (by decide) (by decide) (by decide)

/-- Counterexample to C6 as stated: with no explicit tag (`data_type=None`,
the default), `set` chooses the storage kind by `isinstance` inspection of
the value — two calls differing only in the value's runtime type store
different kinds, so the kind is not determined solely by a caller tag. -/
theorem cache_set_kind_runtime_detection_counterexample :
    (((((CacheManager.construct 500 7 24 [] []).set "k" (PyValue.pystr 3) none none).2).index.lookup
        "k").map CacheEntry.type = some DataType.json)
    ∧ (((((CacheManager.construct 500 7 24 [] []).set "k" (PyValue.dataframe 3) none
        none).2).index.lookup "k").map CacheEntry.type = some DataType.dataframe)
    ∧ DataType.json ≠ DataType.dataframe := by
  decide

/-- C6 amended — `set` uses the caller's explicit `data_type` tag when one is
supplied; when the tag is omitted it falls back to runtime type inspection
(`detect_data_type`). -/
theorem cache_set_kind_tag_or_detect (s : CacheState) (k : String) (v : PyValue)
    (ttl : Option Int) (dt : DataType)
    (hlc : s.last_cleanup = s.current_time) (hci : 0 ≤ s.cleanup_interval) :
    ((((s.set k v ttl (some dt)).2).index.lookup k).map CacheEntry.type = some dt)
    ∧ ((((s.set k v ttl none).2).index.lookup k).map CacheEntry.type
        = some (detect_data_type v)) := by
  constructor
  · rw [set_no_cleanup s k v ttl (some dt) hlc hci]
    simp only [lookup_setAssoc_self]
    rfl
  · rw [set_no_cleanup s k v ttl none hlc hci]
    simp only [lookup_setAssoc_self]
    rfl

/-- Witness for the amended C6. -/
theorem cache_set_kind_tag_or_detect_witness :
    (((((CacheManager.construct 500 7 24 [] []).set "k" (PyValue.pystr 3) none
          (some DataType.pickle)).2).index.lookup "k").map CacheEntry.type
        = some DataType.pickle)
    ∧ (((((CacheManager.construct 500 7 24 [] []).set "k" (PyValue.pystr 3) none
          none).2).index.lookup "k").map CacheEntry.type
        = some (detect_data_type (PyValue.pystr 3))) :=
  cache_set_kind_tag_or_detect (CacheManager.construct 500 7 24 [] [])
    "k" (PyValue.pystr 3) none DataType.pickle (by decide) (by decide)

/-- C10 — on one `CacheManager` instance the clock is frozen, so with
`last_cleanup = current_time` (as set by the constructor and preserved below)
and a nonnegative cleanup interval: `_check_cleanup` is the identity, `set`
keeps `last_cleanup = current_time` and performs exactly the dict update with
no eviction, and consequently the cached bytes can grow past `max_size` — on
a manager constructed with a 0 MB cap, two 5-byte `set`s leave 10 cached
bytes, exceeding the cap, with no cleanup ever triggered. -/
theorem cache_cleanup_never_triggers (s : CacheState) (k : String) (v : PyValue)
    (ttl : Option Int) (dtag : Option DataType)
    (hlc : s.last_cleanup = s.current_time) (hci : 0 ≤ s.cleanup_interval) :
    s.check_cleanup = s
    ∧ (s.set k v ttl dtag).2.last_cleanup = (s.set k v ttl dtag).2.current_time
    ∧ (s.set k v ttl dtag).2.index
        = setAssoc s.index k
            { type := match dtag with | some t => t | none => detect_data_type v
              created_at := s.current_time
              expires_at := s.current_time + pyOrDefault ttl s.default_ttl
              size := v.byteSize }
    ∧ ((((CacheManager.construct 0 7 24 [] []).set "a" (PyValue.pystr 5) none none).2.set
          "b" (PyValue.pystr 5) none none).2.max_size
        < (((CacheManager.construct 0 7 24 [] []).set "a" (PyValue.pystr 5) none none).2.set
          "b" (PyValue.pystr 5) none none).2.get_cache_size) := by
  refine ⟨check_cleanup_eq_self s hlc hci, ?_, ?_, ?_⟩
  · rw [set_no_cleanup s k v ttl dtag hlc hci]
    exact hlc
  · rw [set_no_cleanup s k v ttl dtag hlc hci]
  · decide

/-- Witness for C10 on a freshly constructed manager. -/
theorem cache_cleanup_never_triggers_witness :
    (CacheManager.construct 500 7 24 [] []).check_cleanup = CacheManager.construct 500 7 24 [] []
    ∧ ((CacheManager.construct 500 7 24 [] []).set "k" (PyValue.pystr 3) none
        none).2.last_cleanup
      = ((CacheManager.construct 500 7 24 [] []).set "k" (PyValue.pystr 3) none
        none).2.current_time :=
  ⟨(cache_cleanup_never_triggers (CacheManager.construct 500 7 24 [] []) "k" (PyValue.pystr 3)
      none none (by decide) (by decide)).1,
   (cache_cleanup_never_triggers (CacheManager.construct 500 7 24 [] []) "k" (PyValue.pystr 3)
      none none (by decide) (by decide)).2.1⟩

/-! ## Lemmas about the symbol resolver and the provider failover -/

theorem string_mid_dot_ne_empty (a b : String) : (a ++ "." ++ b) ≠ "" := by
  intro h
  have hlen := congrArg String.length h
  rw [String.length_append, String.length_append] at hlen
  have h1 : ("." : String).length = 1 := rfl
  have h0 : ("" : String).length = 0 := rfl
  omega

theorem format_stock_code_of_lookup_some (sym exch : String)
    (hlook : exchange_map.lookup (symbolKeyOf (clean_symbol sym)) = some exch) :
    _format_stock_code sym
      = .ok (exch ++ "." ++ clean_symbol sym,
             clean_symbol sym ++ "." ++ stringUpper exch,
             clean_symbol sym) := by
  simp only [_format_stock_code, hlook]

theorem format_stock_code_of_lookup_none (sym : String)
    (hlook : exchange_map.lookup (symbolKeyOf (clean_symbol sym)) = none) :
    _format_stock_code sym = .error ("Unknown stock code format: " ++ sym) := by
  simp only [_format_stock_code, hlook]

theorem clean_symbol_ne_empty_of_lookup_some (sym exch : String)
    (hlook : exchange_map.lookup (symbolKeyOf (clean_symbol sym)) = some exch) :
    clean_symbol sym ≠ "" := by
  intro hc
  rw [hc] at hlook
  have hnone : exchange_map.lookup (symbolKeyOf "") = none := by decide
  rw [hnone] at hlook
  cases hlook

theorem load_stock_data_eq_bs (env : ProviderEnv) (cache : List (String × DF))
    (sym : String) (sd ed : Int) (bc tc ac : String) (df : DF)
    (hmiss : cache.lookup (sym ++ "_" ++ toString sd ++ "_" ++ toString ed) = none)
    (hfmt : _format_stock_code sym = .ok (bc, tc, ac))
    (hbs : env.baostock bc = some df) :
    load_stock_data env cache sym sd ed
      = (some (reindexFfill sd ed df),
         setAssoc cache (sym ++ "_" ++ toString sd ++ "_" ++ toString ed)
           (reindexFfill sd ed df),
         [Provider.baostock]) := by
  simp only [load_stock_data, hmiss, hfmt, hbs]

theorem load_stock_data_eq_ts (env : ProviderEnv) (cache : List (String × DF))
    (sym : String) (sd ed : Int) (bc tc ac : String) (df : DF)
    (hmiss : cache.lookup (sym ++ "_" ++ toString sd ++ "_" ++ toString ed) = none)
    (hfmt : _format_stock_code sym = .ok (bc, tc, ac))
    (hbs : env.baostock bc = none) (hts : env.tushare tc = some df) :
    load_stock_data env cache sym sd ed
      = (some (reindexFfill sd ed df),
         setAssoc cache (sym ++ "_" ++ toString sd ++ "_" ++ toString ed)
           (reindexFfill sd ed df),
         [Provider.baostock, Provider.tushare]) := by
  simp only [load_stock_data, hmiss, hfmt, hbs, hts]

theorem load_stock_data_eq_ak (env : ProviderEnv) (cache : List (String × DF))
    (sym : String) (sd ed : Int) (bc tc ac : String) (df : DF)
    (hmiss : cache.lookup (sym ++ "_" ++ toString sd ++ "_" ++ toString ed) = none)
    (hfmt : _format_stock_code sym = .ok (bc, tc, ac))
    (hbs : env.baostock bc = none) (hts : env.tushare tc = none)
    (hak : env.akshare ac = some df) :
    load_stock_data env cache sym sd ed
      = (some (reindexFfill sd ed df),
         setAssoc cache (sym ++ "_" ++ toString sd ++ "_" ++ toString ed)
           (reindexFfill sd ed df),
         [Provider.baostock, Provider.tushare, Provider.akshare]) := by
  simp only [load_stock_data, hmiss, hfmt, hbs, hts, hak]

theorem load_stock_data_eq_none (env : ProviderEnv) (cache : List (String × DF))
    (sym : String) (sd ed : Int) (bc tc ac : String)
    (hmiss : cache.lookup (sym ++ "_" ++ toString sd ++ "_" ++ toString ed) = none)
    (hfmt : _format_stock_code sym = .ok (bc, tc, ac))
    (hbs : env.baostock bc = none) (hts : env.tushare tc = none)
    (hak : env.akshare ac = none) :
    load_stock_data env cache sym sd ed
      = (none, cache, [Provider.baostock, Provider.tushare, Provider.akshare]) := by
  simp only [load_stock_data, hmiss, hfmt, hbs, hts, hak]

theorem reindexFfill_data_mem (sd ed : Int) (df : DF) :
    ∀ b ∈ reindexFfill sd ed df, ∃ b2 ∈ df, b.data = b2.data := by
  intro b hb
  unfold reindexFfill at hb
  obtain ⟨d, hd, hmap⟩ := List.mem_filterMap.mp hb
  cases hlast : lastOnOrBefore df d with
  | none =>
    rw [hlast] at hmap
    cases hmap
  | some b2 =>
    rw [hlast] at hmap
    have hmap2 : ({ date := d, data := b2.data } : Bar) = b := by
      simpa using hmap
    have hb2 : b2 ∈ df := by
      unfold lastOnOrBefore at hlast
      exact List.filter_subset' _ (List.mem_of_getLast?_eq_some hlast)
    refine ⟨b2, hb2, ?_⟩
    rw [← hmap2]

/-! ## Claim theorems about the resolver and the orchestrator -/

/-- C8 — the symbol resolver: a symbol whose cleaned three-character numeric
head is in `exchange_map` resolves to a nonempty address for each of the
three provider formats; one whose head has no mapping fails with the
`Unknown stock code format` `ValueError` (the spec's `UnknownSymbolFormat`),
and `load_stock_data` then attempts no provider fetch at all and returns
`None`. -/
theorem resolver_known_head_nonempty_unknown_no_fetch :
    (∀ sym exch, exchange_map.lookup (symbolKeyOf (clean_symbol sym)) = some exch →
        ∃ bc tc ac, _format_stock_code sym = .ok (bc, tc, ac)
          ∧ bc ≠ "" ∧ tc ≠ "" ∧ ac ≠ "")
    ∧ (∀ sym, exchange_map.lookup (symbolKeyOf (clean_symbol sym)) = none →
        _format_stock_code sym = .error ("Unknown stock code format: " ++ sym))
    ∧ (∀ (env : ProviderEnv) (cache : List (String × DF)) (sym : String) (sd ed : Int) msg,
        cache.lookup (sym ++ "_" ++ toString sd ++ "_" ++ toString ed) = none →
        _format_stock_code sym = .error msg →
        load_stock_data env cache sym sd ed = (none, cache, [])) := by
  refine ⟨?_, ?_, ?_⟩
  · intro sym exch hlook
    refine ⟨exch ++ "." ++ clean_symbol sym, clean_symbol sym ++ "." ++ stringUpper exch,
      clean_symbol sym, format_stock_code_of_lookup_some sym exch hlook,
      string_mid_dot_ne_empty _ _, string_mid_dot_ne_empty _ _,
      clean_symbol_ne_empty_of_lookup_some sym exch hlook⟩
  · intro sym hlook
    exact format_stock_code_of_lookup_none sym hlook
  · intro env cache sym sd ed msg hmiss hfmt
    simp only [load_stock_data, hmiss, hfmt]

/-- Witness for C8: the known symbol "600000" and the unknown symbol
"999999". -/
theorem resolver_known_head_nonempty_unknown_no_fetch_witness :
    (∃ bc tc ac, _format_stock_code "600000" = .ok (bc, tc, ac)
        ∧ bc ≠ "" ∧ tc ≠ "" ∧ ac ≠ "")
    ∧ _format_stock_code "999999" = .error ("Unknown stock code format: " ++ "999999")
    ∧ load_stock_data loaderFailEnv [] "999999" 0 1 = (none, [], []) :=
  ⟨resolver_known_head_nonempty_unknown_no_fetch.1 "600000" "sh" (by decide),
   resolver_known_head_nonempty_unknown_no_fetch.2.1 "999999" (by decide),
   resolver_known_head_nonempty_unknown_no_fetch.2.2 loaderFailEnv [] "999999" 0 1
     ("Unknown stock code format: " ++ "999999") rfl
     (resolver_known_head_nonempty_unknown_no_fetch.2.1 "999999" (by decide))⟩

/-- C2 — `load_stock_data` on a cache miss with a resolvable code tries
baostock, then tushare, then akshare, in that fixed order (the attempted
trace records the order); it returns the first non-`None` result, reindexed
over the requested range; when every provider fails it returns `None` rather
than raising; and any returned series is derived from the frame of exactly
one provider — every row's payload comes from that single provider's rows,
never merged across providers. -/
theorem load_stock_data_provider_failover (env : ProviderEnv) (cache : List (String × DF))
    (sym : String) (sd ed : Int) (bc tc ac : String)
    (hmiss : cache.lookup (sym ++ "_" ++ toString sd ++ "_" ++ toString ed) = none)
    (hfmt : _format_stock_code sym = .ok (bc, tc, ac)) :
    (∀ df, env.baostock bc = some df →
        load_stock_data env cache sym sd ed
          = (some (reindexFfill sd ed df),
             setAssoc cache (sym ++ "_" ++ toString sd ++ "_" ++ toString ed)
               (reindexFfill sd ed df),
             [Provider.baostock]))
    ∧ (∀ df, env.baostock bc = none → env.tushare tc = some df →
        load_stock_data env cache sym sd ed
          = (some (reindexFfill sd ed df),
             setAssoc cache (sym ++ "_" ++ toString sd ++ "_" ++ toString ed)
               (reindexFfill sd ed df),
             [Provider.baostock, Provider.tushare]))
    ∧ (∀ df, env.baostock bc = none → env.tushare tc = none → env.akshare ac = some df →
        load_stock_data env cache sym sd ed
          = (some (reindexFfill sd ed df),
             setAssoc cache (sym ++ "_" ++ toString sd ++ "_" ++ toString ed)
               (reindexFfill sd ed df),
             [Provider.baostock, Provider.tushare, Provider.akshare]))
    ∧ (env.baostock bc = none → env.tushare tc = none → env.akshare ac = none →
        load_stock_data env cache sym sd ed
          = (none, cache, [Provider.baostock, Provider.tushare, Provider.akshare]))
    ∧ (∀ res, (load_stock_data env cache sym sd ed).1 = some res →
        ∃ df, (env.baostock bc = some df
              ∨ (env.baostock bc = none ∧ env.tushare tc = some df)
              ∨ (env.baostock bc = none ∧ env.tushare tc = none ∧ env.akshare ac = some df))
          ∧ res = reindexFfill sd ed df
          ∧ ∀ b ∈ res, ∃ b2 ∈ df, b.data = b2.data) := by
  refine ⟨?_, ?_, ?_, ?_, ?_⟩
  · intro df hbs
    exact load_stock_data_eq_bs env cache sym sd ed bc tc ac df hmiss hfmt hbs
  · intro df hbs hts
    exact load_stock_data_eq_ts env cache sym sd ed bc tc ac df hmiss hfmt hbs hts
  · intro df hbs hts hak
    exact load_stock_data_eq_ak env cache sym sd ed bc tc ac df hmiss hfmt hbs hts hak
  · intro hbs hts hak
    exact load_stock_data_eq_none env cache sym sd ed bc tc ac hmiss hfmt hbs hts hak
  · intro res hres
    cases hbs : env.baostock bc with
    | some df =>
      rw [load_stock_data_eq_bs env cache sym sd ed bc tc ac df hmiss hfmt hbs] at hres
      simp only [Option.some.injEq] at hres
      exact ⟨df, Or.inl rfl, hres.symm, by
        rw [← hres]
        exact reindexFfill_data_mem sd ed df⟩
    | none =>
      cases hts : env.tushare tc with
      | some df =>
        rw [load_stock_data_eq_ts env cache sym sd ed bc tc ac df hmiss hfmt hbs hts] at hres
        simp only [Option.some.injEq] at hres
        exact ⟨df, Or.inr (Or.inl ⟨rfl, rfl⟩), hres.symm, by
          rw [← hres]
          exact reindexFfill_data_mem sd ed df⟩
      | none =>
        cases hak : env.akshare ac with
        | some df =>
          rw [load_stock_data_eq_ak env cache sym sd ed bc tc ac df hmiss hfmt hbs hts hak]
            at hres
          simp only [Option.some.injEq] at hres
          exact ⟨df, Or.inr (Or.inr ⟨rfl, rfl, rfl⟩), hres.symm, by
            rw [← hres]
            exact reindexFfill_data_mem sd ed df⟩
        | none =>
          rw [load_stock_data_eq_none env cache sym sd ed bc tc ac hmiss hfmt hbs hts hak]
            at hres
          cases hres

/-- Witness for C2: baostock fails for "600000", tushare answers — the batch
fails over and the result is tushare's frame, reindexed. -/
theorem load_stock_data_provider_failover_witness :
    load_stock_data loaderDemoEnv [] "600000" 0 1
      = (some (reindexFfill 0 1 loaderDemoDF),
         setAssoc [] ("600000" ++ "_" ++ toString (0 : Int) ++ "_" ++ toString (1 : Int))
           (reindexFfill 0 1 loaderDemoDF),
         [Provider.baostock, Provider.tushare]) :=
  (load_stock_data_provider_failover loaderDemoEnv [] "600000" 0 1
      "sh.600000" "600000.SH" "600000" rfl rfl).2.1 loaderDemoDF rfl rfl

/-! ## Lemmas about the batch aggregation of `sync_stock_data` -/

theorem syncFold_results_lookup_of_not_mem (outcome : String → FetchOutcome)
    {syms : List String} {A : String} (hA : A ∉ syms) :
    ∀ acc : List (String × DF) × List (String × String),
      ((syms.foldl (syncStep outcome) acc).1).lookup A = acc.1.lookup A := by
  induction syms with
  | nil =>
    intro acc
    rfl
  | cons y ys ih =>
    intro acc
    have hAy : A ≠ y := fun h => hA (h ▸ List.mem_cons_self y ys)
    have hA2 : A ∉ ys := fun h => hA (List.mem_cons_of_mem y h)
    rw [List.foldl_cons, ih hA2]
    unfold syncStep
    cases houty : outcome y with
    | exn msg => rfl
    | noData => rfl
    | ok df => exact lookup_setAssoc_ne acc.1 y A df hAy

theorem syncFold_results_lookup_of_ok (outcome : String → FetchOutcome)
    {A : String} {df : DF} (hok : outcome A = FetchOutcome.ok df) :
    ∀ (syms : List String), A ∈ syms →
      ∀ acc, ((syms.foldl (syncStep outcome) acc).1).lookup A = some df := by
  intro syms
  induction syms with
  | nil =>
    intro hA
    cases hA
  | cons y ys ih =>
    intro hA acc
    rw [List.foldl_cons]
    by_cases hAin : A ∈ ys
    · exact ih hAin _
    · have hAy : A = y := by
        rcases List.mem_cons.mp hA with h | h
        · exact h
        · exact absurd h hAin
      subst hAy
      rw [syncFold_results_lookup_of_not_mem outcome hAin]
      unfold syncStep
      rw [hok]
      exact lookup_setAssoc_self acc.1 A df

theorem syncFold_results_lookup_of_not_ok (outcome : String → FetchOutcome)
    {A : String} (hnok : ∀ df, outcome A ≠ FetchOutcome.ok df) :
    ∀ (syms : List String) acc,
      ((syms.foldl (syncStep outcome) acc).1).lookup A = acc.1.lookup A := by
  intro syms
  induction syms with
  | nil =>
    intro acc
    rfl
  | cons y ys ih =>
    intro acc
    rw [List.foldl_cons, ih]
    unfold syncStep
    cases houty : outcome y with
    | exn msg => rfl
    | noData => rfl
    | ok df =>
      by_cases hAy : A = y
      · subst hAy
        exact absurd houty (hnok df)
      · exact lookup_setAssoc_ne acc.1 y A df hAy

theorem syncFold_errors_mem (outcome : String → FetchOutcome) :
    ∀ (syms : List String) acc e, e ∈ (syms.foldl (syncStep outcome) acc).2 →
      e ∈ acc.2 ∨ (e.1 ∈ syms ∧ outcome e.1 = FetchOutcome.exn e.2) := by
  intro syms
  induction syms with
  | nil =>
    intro acc e he
    exact Or.inl he
  | cons y ys ih =>
    intro acc e he
    rw [List.foldl_cons] at he
    rcases ih (syncStep outcome acc y) e he with h1 | h1
    · unfold syncStep at h1
      cases houty : outcome y with
      | exn msg =>
        simp only [houty] at h1
        rcases List.mem_append.mp h1 with h2 | h2
        · exact Or.inl h2
        · have h3 : e = (y, msg) := by simpa using h2
          subst h3
          exact Or.inr ⟨List.mem_cons_self _ _, houty⟩
      | noData =>
        simp only [houty] at h1
        exact Or.inl h1
      | ok df =>
        simp only [houty] at h1
        exact Or.inl h1
    · exact Or.inr ⟨List.mem_cons_of_mem y h1.1, h1.2⟩

theorem syncFold_errors_preserved (outcome : String → FetchOutcome) :
    ∀ (syms : List String) acc e, e ∈ acc.2 → e ∈ (syms.foldl (syncStep outcome) acc).2 := by
  intro syms
  induction syms with
  | nil =>
    intro acc e he
    exact he
  | cons y ys ih =>
    intro acc e he
    rw [List.foldl_cons]
    apply ih
    unfold syncStep
    cases houty : outcome y with
    | exn msg => exact List.mem_append_left _ he
    | noData => exact he
    | ok df => exact he

theorem syncFold_errors_mem_of_exn (outcome : String → FetchOutcome)
    {A msg : String} (hexn : outcome A = FetchOutcome.exn msg) :
    ∀ (syms : List String), A ∈ syms →
      ∀ acc, (A, msg) ∈ (syms.foldl (syncStep outcome) acc).2 := by
  intro syms
  induction syms with
  | nil =>
    intro hA
    cases hA
  | cons y ys ih =>
    intro hA acc
    rw [List.foldl_cons]
    by_cases hAin : A ∈ ys
    · exact ih hAin _
    · have hAy : A = y := by
        rcases List.mem_cons.mp hA with h | h
        · exact h
        · exact absurd h hAin
      subst hAy
      apply syncFold_errors_preserved
      unfold syncStep
      rw [hexn]
      exact List.mem_append_right _ (by simp)

theorem foldl_setAssoc_lookup_of_no_key (A : String) :
    ∀ (updates : List (String × String)), (∀ e ∈ updates, e.1 ≠ A) →
      ∀ m, ((updates.foldl (fun m e => setAssoc m e.1 e.2) m).lookup A) = m.lookup A := by
  intro updates
  induction updates with
  | nil =>
    intro _ m
    rfl
  | cons u us ih =>
    intro h m
    rw [List.foldl_cons, ih (fun e he => h e (List.mem_cons_of_mem u he))]
    exact lookup_setAssoc_ne m u.1 A u.2 (Ne.symm (h u (List.mem_cons_self u us)))

theorem foldl_setAssoc_lookup_of_uniform (A msg : String) :
    ∀ (updates : List (String × String)),
      (∀ e ∈ updates, e.1 = A → e.2 = msg) →
      (∃ e ∈ updates, e.1 = A) →
      ∀ m, ((updates.foldl (fun m e => setAssoc m e.1 e.2) m).lookup A) = some msg := by
  intro updates
  induction updates with
  | nil =>
    intro _ hex m
    obtain ⟨e, he, _⟩ := hex
    exact absurd he (List.not_mem_nil e)
  | cons u us ih =>
    intro huniform hex m
    rw [List.foldl_cons]
    by_cases hus : ∃ e ∈ us, e.1 = A
    · exact ih (fun e he h1 => huniform e (List.mem_cons_of_mem u he) h1) hus _
    · have huA : u.1 = A := by
        obtain ⟨e, he, h1⟩ := hex
        rcases List.mem_cons.mp he with h2 | h2
        · rw [h2] at h1
          exact h1
        · exact absurd ⟨e, h2, h1⟩ hus
      have hu2 : u.2 = msg := huniform u (List.mem_cons_self u us) huA
      have hnok : ∀ e ∈ us, e.1 ≠ A := fun e he hh => hus ⟨e, he, hh⟩
      rw [foldl_setAssoc_lookup_of_no_key A us hnok, huA, hu2]
      exact lookup_setAssoc_self m A msg

theorem sync_results_eq (st : SyncStatus) (now : String) (symbols : List String)
    (outcome : String → FetchOutcome) :
    (sync_stock_data st now symbols outcome).1
      = (symbols.foldl (syncStep outcome) ([], [])).1 := rfl

theorem sync_errors_eq (st : SyncStatus) (now : String) (symbols : List String)
    (outcome : String → FetchOutcome) :
    (sync_stock_data st now symbols outcome).2.errors
      = match (symbols.foldl (syncStep outcome) ([], [])).2 with
        | [] => st.errors
        | _ :: _ => ((symbols.foldl (syncStep outcome) ([], [])).2).foldl
            (fun m e => setAssoc m e.1 e.2) st.errors := rfl

theorem sync_errors_lookup_unchanged (st : SyncStatus) (now : String)
    (symbols : List String) (outcome : String → FetchOutcome) (A : String)
    (h : ∀ e ∈ (symbols.foldl (syncStep outcome) ([], [])).2, e.1 ≠ A) :
    ((sync_stock_data st now symbols outcome).2).errors.lookup A = st.errors.lookup A := by
  rw [sync_errors_eq]
  cases hr2 : (symbols.foldl (syncStep outcome) ([], [])).2 with
  | nil => rfl
  | cons u us =>
    apply foldl_setAssoc_lookup_of_no_key
    intro e he
    apply h
    rw [hr2]
    exact he

theorem sync_errors_lookup_exn (st : SyncStatus) (now : String)
    (symbols : List String) (outcome : String → FetchOutcome) (A msg : String)
    (hA : A ∈ symbols) (hexn : outcome A = FetchOutcome.exn msg) :
    ((sync_stock_data st now symbols outcome).2).errors.lookup A = some msg := by
  have hmem : (A, msg) ∈ (symbols.foldl (syncStep outcome) ([], [])).2 :=
    syncFold_errors_mem_of_exn outcome hexn symbols hA ([], [])
  rw [sync_errors_eq]
  cases hr2 : (symbols.foldl (syncStep outcome) ([], [])).2 with
  | nil =>
    rw [hr2] at hmem
    exact absurd hmem (List.not_mem_nil _)
  | cons u us =>
    apply foldl_setAssoc_lookup_of_uniform
    · intro e he h1
      have hemem : e ∈ (symbols.foldl (syncStep outcome) ([], [])).2 := by
        rw [hr2]
        exact he
      rcases syncFold_errors_mem outcome symbols ([], []) e hemem with h2 | h2
      · exact absurd h2 (List.not_mem_nil e)
      · have h3 : outcome A = FetchOutcome.exn e.2 := h1 ▸ h2.2
        rw [hexn] at h3
        exact (FetchOutcome.exn.injEq _ _).mp h3.symm
    · refine ⟨(A, msg), ?_, rfl⟩
      rw [← hr2]
      exact hmem

/-! ## Claim theorems about the batch sync -/

/-- Counterexample to C1 as stated: a symbol whose every retry attempt fails
returns `None` (`_fetch_stock_data` below), and `sync_stock_data` then
excludes it from the results dict but also records nothing for it in the
persisted error map — only tasks that raised are recorded — so C1's clause
"every symbol whose fetch exhausts all retry attempts is recorded in the
errors map" is false. -/
theorem sync_exhausted_retries_not_in_errors :
    _fetch_stock_data none 3 (fun _ => none) = none
    ∧ ((sync_stock_data ⟨none, 0, []⟩ "2025-02-15" ["A"]
        (fun _ => FetchOutcome.noData)).1).lookup "A" = none
    ∧ ((sync_stock_data ⟨none, 0, []⟩ "2025-02-15" ["A"]
        (fun _ => FetchOutcome.noData)).2).errors.lookup "A" = none := by
  decide

/-- C1 amended — the batch call returns a results dict (errors are persisted
into the sync status, not returned as part of a pair) and never raises; for
any symbol of the batch, looking only at that symbol's own task outcome:
a returned frame appears in the results; a symbol that exhausted its retries
(its task returned `None`) is excluded from the results and leaves its error
entry untouched; a symbol whose task raised is excluded from the results and
is recorded in the persisted error map with its message.  Since the other
symbols' outcomes are universally quantified, no symbol's failure changes any
other symbol's outcome. -/
theorem sync_batch_outcome_per_symbol (st : SyncStatus) (now : String)
    (symbols : List String) (outcome : String → FetchOutcome) (A : String)
    (hA : A ∈ symbols) :
    (∀ df, outcome A = FetchOutcome.ok df →
        ((sync_stock_data st now symbols outcome).1).lookup A = some df)
    ∧ (outcome A = FetchOutcome.noData →
        ((sync_stock_data st now symbols outcome).1).lookup A = none
          ∧ ((sync_stock_data st now symbols outcome).2).errors.lookup A
              = st.errors.lookup A)
    ∧ (∀ msg, outcome A = FetchOutcome.exn msg →
        ((sync_stock_data st now symbols outcome).1).lookup A = none
          ∧ ((sync_stock_data st now symbols outcome).2).errors.lookup A = some msg)
    ∧ ((sync_stock_data st now symbols outcome).2).sync_count = st.sync_count + 1
    ∧ ((sync_stock_data st now symbols outcome).2).last_sync = some now := by
  refine ⟨?_, ?_, ?_, rfl, rfl⟩
  · intro df hok
    rw [sync_results_eq]
    exact syncFold_results_lookup_of_ok outcome hok symbols hA ([], [])
  · intro hnd
    have hnok : ∀ df, outcome A ≠ FetchOutcome.ok df := by
      intro df h
      exact FetchOutcome.noConfusion (hnd.symm.trans h)
    constructor
    · rw [sync_results_eq]
      rw [syncFold_results_lookup_of_not_ok outcome hnok symbols ([], [])]
      rfl
    · apply sync_errors_lookup_unchanged
      intro e he hh
      rcases syncFold_errors_mem outcome symbols ([], []) e he with h2 | h2
      · exact absurd h2 (List.not_mem_nil e)
      · have h3 : outcome A = FetchOutcome.exn e.2 := hh ▸ h2.2
        exact FetchOutcome.noConfusion (hnd.symm.trans h3)
  · intro msg hexn
    constructor
    · have hnok : ∀ df, outcome A ≠ FetchOutcome.ok df := by
        intro df h
        exact FetchOutcome.noConfusion (hexn.symm.trans h)
      rw [sync_results_eq]
      rw [syncFold_results_lookup_of_not_ok outcome hnok symbols ([], [])]
      rfl
    · exact sync_errors_lookup_exn st now symbols outcome A msg hA hexn

/-- Witness for the amended C1 on a three-symbol batch where "A" succeeds,
"B" exhausts its retries and "C" raises. -/
theorem sync_batch_outcome_per_symbol_witness :
    ((sync_stock_data syncDemoStatus "t" ["A", "B", "C"] syncDemoOutcome).1).lookup "A"
        = some syncDemoDF
    ∧ (((sync_stock_data syncDemoStatus "t" ["A", "B", "C"] syncDemoOutcome).1).lookup "B"
          = none
        ∧ ((sync_stock_data syncDemoStatus "t" ["A", "B", "C"] syncDemoOutcome).2).errors.lookup
            "B" = syncDemoStatus.errors.lookup "B")
    ∧ (((sync_stock_data syncDemoStatus "t" ["A", "B", "C"] syncDemoOutcome).1).lookup "C"
          = none
        ∧ ((sync_stock_data syncDemoStatus "t" ["A", "B", "C"] syncDemoOutcome).2).errors.lookup
            "C" = some "boom") :=
  ⟨(sync_batch_outcome_per_symbol syncDemoStatus "t" ["A", "B", "C"] syncDemoOutcome "A"
      (by decide)).1 syncDemoDF (by decide),
   (sync_batch_outcome_per_symbol syncDemoStatus "t" ["A", "B", "C"] syncDemoOutcome "B"
      (by decide)).2.1 (by decide),
   (sync_batch_outcome_per_symbol syncDemoStatus "t" ["A", "B", "C"] syncDemoOutcome "C"
      (by decide)).2.2.1 "boom" (by decide)⟩

/-- Counterexample to C7 as stated: a symbol that succeeds in the batch does
NOT have its previous error entry removed — `sync_stock_data` only ever
`update`s the error map with new failures and never deletes entries, so the
stale entry survives the success. -/
theorem sync_success_keeps_stale_error_counterexample :
    ((sync_stock_data ⟨none, 0, [("A", "old failure")]⟩ "t" ["A"]
        (fun _ => FetchOutcome.ok syncDemoDF)).1).lookup "A" = some syncDemoDF
    ∧ ((sync_stock_data ⟨none, 0, [("A", "old failure")]⟩ "t" ["A"]
        (fun _ => FetchOutcome.ok syncDemoDF)).2).errors.lookup "A" = some "old failure" := by
  decide

/-- C7 amended — after a batch, the persisted error map changes only by
adding/overwriting entries for symbols that raised in that batch: a symbol
outside the batch keeps its previous entry, a symbol that succeeded or
exhausted its retries also keeps its previous entry (success does not clear
it), and a symbol that raised maps to its new message. -/
theorem sync_error_map_update_semantics (st : SyncStatus) (now : String)
    (symbols : List String) (outcome : String → FetchOutcome) (A : String) :
    (A ∉ symbols →
        ((sync_stock_data st now symbols outcome).2).errors.lookup A = st.errors.lookup A)
    ∧ ((outcome A = FetchOutcome.noData ∨ ∃ df, outcome A = FetchOutcome.ok df) →
        ((sync_stock_data st now symbols outcome).2).errors.lookup A = st.errors.lookup A)
    ∧ (A ∈ symbols → ∀ msg, outcome A = FetchOutcome.exn msg →
        ((sync_stock_data st now symbols outcome).2).errors.lookup A = some msg) := by
  refine ⟨?_, ?_, ?_⟩
  · intro hA
    apply sync_errors_lookup_unchanged
    intro e he hh
    rcases syncFold_errors_mem outcome symbols ([], []) e he with h2 | h2
    · exact absurd h2 (List.not_mem_nil e)
    · exact hA (hh ▸ h2.1)
  · intro hout
    apply sync_errors_lookup_unchanged
    intro e he hh
    rcases syncFold_errors_mem outcome symbols ([], []) e he with h2 | h2
    · exact absurd h2 (List.not_mem_nil e)
    · have h3 : outcome A = FetchOutcome.exn e.2 := hh ▸ h2.2
      rcases hout with h4 | ⟨df, h4⟩
      · exact FetchOutcome.noConfusion (h4.symm.trans h3)
      · exact FetchOutcome.noConfusion (h4.symm.trans h3)
  · intro hA msg hexn
    exact sync_errors_lookup_exn st now symbols outcome A msg hA hexn

/-- Witness for the amended C7: "D" is outside the batch, "B" exhausts its
retries inside the batch, "C" raises. -/
theorem sync_error_map_update_semantics_witness :
    ((sync_stock_data syncDemoStatus "t" ["A", "B", "C"] syncDemoOutcome).2).errors.lookup "D"
        = syncDemoStatus.errors.lookup "D"
    ∧ ((sync_stock_data syncDemoStatus "t" ["A", "B", "C"] syncDemoOutcome).2).errors.lookup "A"
        = syncDemoStatus.errors.lookup "A"
    ∧ ((sync_stock_data syncDemoStatus "t" ["A", "B", "C"] syncDemoOutcome).2).errors.lookup "C"
        = some "boom" :=
  ⟨(sync_error_map_update_semantics syncDemoStatus "t" ["A", "B", "C"] syncDemoOutcome
      "D").1 (by decide),
   (sync_error_map_update_semantics syncDemoStatus "t" ["A", "B", "C"] syncDemoOutcome
      "A").2.1 (Or.inr ⟨syncDemoDF, by decide⟩),
   (sync_error_map_update_semantics syncDemoStatus "t" ["A", "B", "C"] syncDemoOutcome
      "C").2.2 (by decide) "boom" (by decide)⟩

/-! ## Lemmas about the semaphore-scheduler model -/

theorem running_filter_replicate_waiting (m : Nat) :
    ((List.replicate m TaskPhase.waiting).filter (fun t => t == TaskPhase.running)).length
      = 0 := by
  induction m with
  | zero => rfl
  | succ k ih => simp [List.replicate_succ, List.filter_cons, ih]

theorem running_filter_set_waiting :
    ∀ (l : List TaskPhase) (i : Nat) (hi : i < l.length),
      l.get ⟨i, hi⟩ = TaskPhase.waiting →
      ((l.set i TaskPhase.running).filter (fun t => t == TaskPhase.running)).length
        = (l.filter (fun t => t == TaskPhase.running)).length + 1 := by
  intro l
  induction l with
  | nil =>
    intro i hi
    exact absurd hi (Nat.not_lt_zero i)
  | cons x xs ih =>
    intro i hi hw
    cases i with
    | zero =>
      have hx : x = TaskPhase.waiting := hw
      subst hx
      simp [List.filter_cons]
    | succ j =>
      have hj : j < xs.length := by simpa using hi
      have hw2 : xs.get ⟨j, hj⟩ = TaskPhase.waiting := hw
      have hrec := ih j hj hw2
      cases hx : (x == TaskPhase.running) <;>
        simp [List.set, List.filter_cons, hx, hrec]

theorem running_filter_set_running :
    ∀ (l : List TaskPhase) (i : Nat) (hi : i < l.length),
      l.get ⟨i, hi⟩ = TaskPhase.running →
      ((l.set i TaskPhase.done).filter (fun t => t == TaskPhase.running)).length + 1
        = (l.filter (fun t => t == TaskPhase.running)).length := by
  intro l
  induction l with
  | nil =>
    intro i hi
    exact absurd hi (Nat.not_lt_zero i)
  | cons x xs ih =>
    intro i hi hr
    cases i with
    | zero =>
      have hx : x = TaskPhase.running := hr
      subst hx
      simp [List.filter_cons]
    | succ j =>
      have hj : j < xs.length := by simpa using hi
      have hr2 : xs.get ⟨j, hj⟩ = TaskPhase.running := hr
      have hrec := ih j hj hr2
      cases hx : (x == TaskPhase.running) <;>
        simp [List.set, List.filter_cons, hx] <;> omega

theorem sched_invariant {c n : Nat} {s : SchedState} (h : SchedReachable c n s) :
    inFlight s + s.sem = c := by
  induction h with
  | start =>
    show inFlight (initSched c n) + c = c
    unfold inFlight initSched
    rw [running_filter_replicate_waiting]
    omega
  | step hreach hstep ih =>
    rename_i s1 t1
    cases hstep with
    | acquire i hi hw hs =>
      have hcount := running_filter_set_waiting s1.tasks i hi hw
      unfold inFlight at ih
      show ((s1.tasks.set i TaskPhase.running).filter
          (fun t => t == TaskPhase.running)).length + (s1.sem - 1) = c
      omega
    | release i hi hr =>
      have hcount := running_filter_set_running s1.tasks i hi hr
      unfold inFlight at ih
      show ((s1.tasks.set i TaskPhase.done).filter
          (fun t => t == TaskPhase.running)).length + (s1.sem + 1) = c
      omega

/-- C9 — the concurrency bound is structural: in every state reachable
during a batch with `asyncio.Semaphore(c)`, the number of in-flight
per-symbol fetches plus the semaphore counter equals `c`, and hence at no
instant are more than `c` fetches in flight, however many tasks the batch
has. -/
theorem semaphore_inflight_le_bound (c n : Nat) (s : SchedState)
    (h : SchedReachable c n s) : inFlight s ≤ c := by
  have hinv := sched_invariant h
  omega

/-- Witness for C9: the state of a two-symbol batch under bound 1 after the
first task acquired the semaphore. -/
theorem semaphore_inflight_le_bound_witness :
    inFlight ⟨0, [TaskPhase.running, TaskPhase.waiting]⟩ ≤ 1 :=
  semaphore_inflight_le_bound 1 2 ⟨0, [TaskPhase.running, TaskPhase.waiting]⟩
    (SchedReachable.step SchedReachable.start
      (SchedStep.acquire (initSched 1 2) 0 (by decide) (by decide) (by decide)))

end TrendQuest
